import Mathlib

/-!
Verification of the jacobin class-loading subsystem (Go sources) against its
natural-language specification.  The Go code under `src/classloader/jmod.go`,
`src/jvm/jvmStart.go` and `src/management/metrics.go` is embedded shallowly:
byte sequences become `List Nat`, Go maps become association lists with
overwrite-on-insert semantics, fallible calls return an explicit result type,
and Go's runtime panics (slice bounds) are a distinguished result constructor.
-/

namespace Jacobin

/-! ## String helpers mirroring Go's `strings` package

Computations are carried out on the underlying character lists so that every
definition reduces inside the kernel on concrete inputs. -/

/-- Remove the leftmost occurrence of the non-empty pattern `pat` from `s`
(the list-level core of Go `strings.Replace(s, pat, "", 1)`). -/
def removeFirst (pat : List Char) : List Char → List Char
  | [] => []
  | x :: xs =>
    if pat.isPrefixOf (x :: xs) then (x :: xs).drop pat.length
    else x :: removeFirst pat xs

/-- Go `strings.Replace(s, pat, "", 1)`: remove the first occurrence of `pat`
in `s` (used by jmod.go with `pat = "classes/"`). -/
def replaceFirst (s pat : String) : String :=
  String.mk (removeFirst pat.toList s.toList)

/-- Go `strings.HasPrefix(s, pat)`. -/
def goStartsWith (s pat : String) : Bool :=
  pat.toList.isPrefixOf s.toList

/-- Go `strings.HasSuffix(s, pat)`. -/
def goEndsWith (s pat : String) : Bool :=
  pat.toList.isSuffixOf s.toList

/-- The list-level core of Go `strings.Split(s, sep)` for a one-character
separator: split around every occurrence of `c`. -/
def splitOnChar (c : Char) : List Char → List (List Char)
  | [] => [[]]
  | x :: xs =>
    if x = c then [] :: splitOnChar c xs
    else
      match splitOnChar c xs with
      | [] => [[x]]
      | y :: ys => (x :: y) :: ys

/-- Go `strings.Split(s, "\n")`. -/
def splitLines (s : String) : List String :=
  (splitOnChar '\n' s.toList).map String.mk

/-- Go `strings.TrimRight(c, "\r\n")`: drop all trailing CR and LF characters. -/
def trimRightCRLF (c : String) : String :=
  String.mk ((c.toList.reverse.dropWhile fun ch => ch = '\r' ∨ ch = '\n').reverse)

/-- Decode bytes to a string one byte per character (Go `string(b)` on the
ASCII classlists the code reads). -/
def asciiDecode (b : List Nat) : String :=
  String.mk (b.map Char.ofNat)

/-! ## ZIP archive model

`zip.Reader` is library code; the decoded archive is modelled as the list of
its entries in file order, each with its full internal name and contents. -/

structure ZipEntry where
  name : String
  content : List Nat
deriving DecidableEq, Repr

/-- `zip.Reader.Open(name)`: the first entry with the given name. -/
def findEntry (archive : List ZipEntry) (name : String) : Option ZipEntry :=
  archive.find? (fun e => e.name = name)

/-! ## Go map with string keys (jmod.go `entries map[string]string`)

Modelled as an association list where assignment overwrites in place, so that
re-assigning an existing key with the same value leaves the state unchanged,
exactly as for the abstract map. -/

def EntryMap := List (String × String)
deriving DecidableEq, Repr

instance : EmptyCollection EntryMap := ⟨([] : List (String × String))⟩

/-- Go `m[k] = v`. -/
def mapSet (m : EntryMap) (k v : String) : EntryMap :=
  let l : List (String × String) := m
  if (l.find? (fun p => p.1 = k)).isSome then
    l.map (fun p => if p.1 = k then (k, v) else p)
  else
    l ++ [(k, v)]

/-- Go `v, ok := m[k]` (last assignment wins; `mapSet` keeps keys unique so
the first match is the binding). -/
def mapGet (m : EntryMap) (k : String) : Option String :=
  ((m : List (String × String)).find? (fun p => p.1 = k)).map (·.2)

/-! ## Result type for Go calls

Go functions in jmod.go return `(value, error)`; out-of-range slice accesses
abort with a runtime panic, which the embedding keeps as its own outcome. -/

inductive GoResult (α : Type) where
  | ok (a : α)
  | err (msg : String)
  | panicked (msg : String)
deriving DecidableEq, Repr

/-- Go `fmt.Sprintf("%x", n)`: lowercase hex digits. -/
def toHex (n : Nat) : String :=
  String.mk (Nat.toDigits 16 n)

/-! ## jmod.go: `getZipReader` -/

/-- jmod.go: `const MagicNumber = 0x4A4D`. -/
def MagicNumber : Nat := 0x4A4D

/-- The error message of jmod.go `getZipReader` on a magic mismatch
(`fmt.Sprintf` with `%x` verbs for the two magics). -/
def magicErrMsg (fileName : String) (fileMagic : Nat) : String :=
  "An IOException occurred reading " ++ fileName ++
    ": the magic number is invalid. Expected: " ++ toHex MagicNumber ++
    ", Got: " ++ toHex fileMagic

/-- jmod.go `getZipReader`: reads the whole file `b`, checks the 16-bit
big-endian magic in the first two bytes, then hands `b[4:]` to the ZIP
library.  The library call `zip.NewReader` is a parameter `zipDecode`; the
file's bytes are given directly (the `os.ReadFile` success case).  Slicing
`b[:2]` with fewer than 2 bytes, or `b[4:]` with fewer than 4, is a Go
runtime panic. -/
def getZipReader (zipDecode : List Nat → Except String (List ZipEntry))
    (fileName : String) (b : List Nat) : GoResult (List ZipEntry) :=
  if b.length < 2 then
    .panicked "runtime error: slice bounds out of range"
  else
    let fileMagic := b.getD 0 0 * 256 + b.getD 1 0
    if fileMagic ≠ MagicNumber then
      .err (magicErrMsg fileName fileMagic)
    else if b.length < 4 then
      .panicked "runtime error: slice bounds out of range"
    else
      match zipDecode (b.drop 4) with
      | .ok archive => .ok archive
      | .error e => .err e

/-! ## jmod.go: `getClasslist` -/

/-- jmod.go classlist loop body: a line ending in CR or LF is stripped of all
trailing CR/LF characters (`strings.TrimRight(c, "\r\n")`). -/
def trimLine (c : String) : String :=
  if goEndsWith c "\r" ∨ goEndsWith c "\n" then trimRightCRLF c else c

/-- jmod.go `getClasslist`, parsing part: split the classlist contents on
`"\n"`, trim each line, suffix `".class"`. -/
def classlistNames (content : String) : List String :=
  (splitLines content).map (fun c => trimLine c ++ ".class")

/-- jmod.go `getClasslist`: open `lib/classlist` in the archive; if it is
absent the empty set is returned (the in-memory archive model makes the
read-error branch unreachable once the entry exists). -/
def getClasslist (archive : List ZipEntry) : List String :=
  match findEntry archive "lib/classlist" with
  | none => []
  | some e => classlistNames (asciiDecode e.content)

/-! ## jmod.go: `Walk` -/

/-- jmod.go: `classFileName := strings.Replace(f.Name, "classes/", "", 1)`. -/
def classFileName (n : String) : String :=
  replaceFirst n "classes/"

/-- Observable outcome of `Jmod.Walk` over a decoded archive: the arguments of
each visitor invocation in order, the visitor's returned errors (each one
discarded by `Walk` via `_ = walk(...)`), and the final `entries` map. -/
structure WalkOut where
  visits : List (List Nat × String)
  visitorOut : List (Option String)
  entries : EntryMap
deriving Repr

/-- The `for _, f := range r.File` loop of `Jmod.Walk`.  `classSet` is the
set computed once by `getClasslist` before the loop; `useClassSet` is its
non-emptiness.  Every `classes`-prefixed entry is written into the `entries`
map before the filter is applied. -/
def walkLoop (fileName : String) (visitor : List Nat → String → Option String)
    (classSet : List String) : List ZipEntry → EntryMap → WalkOut
  | [], m => ⟨[], [], m⟩
  | f :: rest, m =>
    if goStartsWith f.name "classes" = false then
      walkLoop fileName visitor classSet rest m
    else
      let cfn := classFileName f.name
      let m' := mapSet m cfn f.name
      if classSet.isEmpty = false then
        if classSet.contains cfn = false then
          walkLoop fileName visitor classSet rest m'
        else
          let r := visitor f.content (fileName ++ "+" ++ f.name)
          let out := walkLoop fileName visitor classSet rest m'
          ⟨(f.content, fileName ++ "+" ++ f.name) :: out.visits, r :: out.visitorOut, out.entries⟩
      else
        if goEndsWith f.name ".class" = false then
          walkLoop fileName visitor classSet rest m'
        else
          let r := visitor f.content (fileName ++ "+" ++ f.name)
          let out := walkLoop fileName visitor classSet rest m'
          ⟨(f.content, fileName ++ "+" ++ f.name) :: out.visits, r :: out.visitorOut, out.entries⟩

/-- jmod.go `Jmod.Walk` over an already-decoded archive, starting from the
handle's current `entries` map.  The in-memory archive makes the per-entry
`Open`/`ReadAll` error branches unreachable, so the walk always completes and
returns nil. -/
def jmodWalk (fileName : String) (archive : List ZipEntry)
    (visitor : List Nat → String → Option String) (m : EntryMap) : WalkOut :=
  walkLoop fileName visitor (getClasslist archive) archive m

/-- jmod.go `Jmod.Walk` from the raw file bytes: `getZipReader` first, its
error aborting the walk. -/
def jmodWalkFull (zipDecode : List Nat → Except String (List ZipEntry))
    (fileName : String) (b : List Nat)
    (visitor : List Nat → String → Option String) (m : EntryMap) :
    GoResult WalkOut :=
  match getZipReader zipDecode fileName b with
  | .ok archive => .ok (jmodWalk fileName archive visitor m)
  | .err e => .err e
  | .panicked e => .panicked e

/-! ## jmod.go: `LoadByName` -/

/-- Mutable fields of a `Jmod` handle: the `entries` map and whether the
`sync.Once` has already run. -/
structure JmodState where
  entries : EntryMap
  onceDone : Bool
deriving DecidableEq, Repr

/-- `InitJmod`: fresh handle state. -/
def initJmodState : JmodState := ⟨∅, false⟩

/-- The population loop shared by `LoadByName`'s `once.Do` body and `Walk`:
for each entry with prefix `classes`, assign `entries[classFileName] = f.Name`. -/
def populateEntries (m : EntryMap) (archive : List ZipEntry) : EntryMap :=
  archive.foldl
    (fun m f =>
      if goStartsWith f.name "classes" then mapSet m (classFileName f.name) f.name else m)
    m

/-- The `entryListOnce.Do` of `Jmod.LoadByName`: populate `entries` once. -/
def loadByNameState (st : JmodState) (archive : List ZipEntry) : JmodState :=
  if st.onceDone then st else ⟨populateEntries st.entries archive, true⟩

/-- jmod.go `Jmod.LoadByName` over a decoded archive: run the once-guarded
population, look the name up in `entries`, and read the entry's bytes from
the current reader.  A missing key returns `(nil, nil)`. -/
def loadByNameStep (st : JmodState) (archive : List ZipEntry) (name : String) :
    JmodState × GoResult (Option (List Nat)) :=
  let st' := loadByNameState st archive
  (st',
    match mapGet st'.entries name with
    | some cls =>
      match findEntry archive cls with
      | some e => .ok (some e.content)
      | none => .err ("open " ++ cls ++ ": file does not exist")
    | none => .ok none)

/-- jmod.go `Jmod.LoadByName` from the raw file bytes. -/
def loadByNameFull (zipDecode : List Nat → Except String (List ZipEntry))
    (fileName : String) (b : List Nat) (st : JmodState) (name : String) :
    JmodState × GoResult (Option (List Nat)) :=
  match getZipReader zipDecode fileName b with
  | .ok archive => loadByNameStep st archive name
  | .err e => (st, .err e)
  | .panicked e => (st, .panicked e)

/-! ## Sequences of operations on one `Jmod` handle (state evolution)

Each operation re-reads the backing file, so the decoded archive an operation
sees is part of the operation (the file on disk may change between calls). -/

inductive JmodOp where
  | load (archive : List ZipEntry) (name : String)
  | walkAll (archive : List ZipEntry)

/-- State transition of one `LoadByName` or `Walk` call on a handle. -/
def runOp (st : JmodState) : JmodOp → JmodState
  | .load a n => (loadByNameStep st a n).1
  | .walkAll a => ⟨(jmodWalk "" a (fun _ _ => none) st.entries).entries, st.onceDone⟩

/-- Run a sequence of operations from a state. -/
def runOps (st : JmodState) (ops : List JmodOp) : JmodState :=
  ops.foldl runOp st

/-! ## jmod.go: `JmodManager` -/

/-- `filepath.Base`: final path element (the paths produced by walking the
jmods directory have no trailing separator). -/
def pathBase (p : String) : String :=
  (((splitOnChar '/' p.toList).map String.mk).getLast?).getD p

/-- Result of `InitJmodManager`: the discovered `.jmod` files keyed by base
name in discovery order, and the path of the designated base module. -/
structure JmodManagerModel where
  jmodNames : List (String × String)
  base : String
deriving DecidableEq, Repr

/-- jmod.go `InitJmodManager`.  `dirListing` is the sequence of paths
`filepath.Walk` hands to the callback for `<javaHome>/jmods` (when the
directory does not exist, the callback sees only the directory path itself,
paired with an error the code ignores).  Paths not ending in `.jmod` are
skipped; the base handle is the last discovered path whose base name equals
`baseName`; when none is found the function fails with the `Base JMOD ... not
found` error.  The path separator is `/` (Linux). -/
def initJmodManager (dirListing : List String) (javaHome baseName : String) :
    Except String JmodManagerModel :=
  match ((dirListing.filter (fun p => goEndsWith p ".jmod")).filter
      (fun p => pathBase p = baseName)).getLast? with
  | some b =>
    .ok ⟨(dirListing.filter (fun p => goEndsWith p ".jmod")).map
      (fun p => (pathBase p, p)), b⟩
  | none =>
    .error ("Base JMOD with name " ++ baseName ++ " not found in " ++
      (javaHome ++ "/" ++ "jmods"))

/-- One archive as the manager sees it: already decoded (every claim about
`LoadClassByName` concerns readable archives). -/
def loadByNameFresh (archive : List ZipEntry) (name : String) :
    GoResult (Option (List Nat)) :=
  (loadByNameStep initJmodState archive name).2

/-- jmod.go `JmodManager.LoadClassByName`, with the probe order made
explicit: `for _, value := range manager.jmodList` ranges over a Go map, whose
iteration order is unspecified, so the loop is modelled over an arbitrary
enumeration `order` of the indexed archives.  An error from any probe aborts;
a hit returns its bytes; exhaustion returns `(nil, nil)`. -/
def loadClassByNameWith : List (List ZipEntry) → String → GoResult (Option (List Nat))
  | [], _ => .ok none
  | a :: rest, name =>
    match loadByNameFresh a name with
    | .ok (some res) => .ok (some res)
    | .ok none => loadClassByNameWith rest name
    | .err e => .err e
    | .panicked e => .panicked e

/-! ## jvmStart.go: `JVMrun` decision logic

The collaborators `JVMrun` calls (CLI handling, `GetMainClassFromJar`,
`LoadClassFromJar`, `LoadClassFromFile`, `StartExec`) are inputs of the
embedding; the embedding reproduces the branch structure of jvmStart.go and
returns the reason code passed to `shutdown.Exit`, together with the INFO log
lines the branches emit. -/

inductive ShutdownReason where
  | OK
  | APP_EXCEPTION
  | JVM_EXCEPTION
deriving DecidableEq, Repr

structure JvmEnv where
  cliError : Bool
  exitNow : Bool
  startingJar : String
  startingClass : String
  mainClassFromJar : Except String String
  loadClassFromJar : Except String String
  loadClassFromFile : Except String String
  startExecFails : Bool
deriving Repr

/-- Tail of `JVMrun` once a main class is loaded: `StartExec` failure exits
with `APP_EXCEPTION`, success with `OK`. -/
def jvmRunExec (env : JvmEnv) (mainClass : String) : ShutdownReason × List String :=
  if env.startExecFails then
    (.APP_EXCEPTION, ["Starting execution with: " ++ mainClass])
  else
    (.OK, ["Starting execution with: " ++ mainClass])

/-- jvmStart.go `JVMrun`, lines 41-102: the branch structure deciding the
shutdown reason, with each collaborator's outcome taken from `env`. -/
def jvmRun (env : JvmEnv) : ShutdownReason × List String :=
  if env.cliError then (.APP_EXCEPTION, [])
  else if env.exitNow then (.OK, [])
  else if env.startingJar ≠ "" then
    match env.mainClassFromJar with
    | .error e => (.JVM_EXCEPTION, [e])
    | .ok manifestClass =>
      if manifestClass = "" then
        (.APP_EXCEPTION, ["no main manifest attribute, in " ++ env.startingJar])
      else
        match env.loadClassFromJar with
        | .error _ => (.JVM_EXCEPTION, [])
        | .ok mainClass => jvmRunExec env mainClass
  else if env.startingClass ≠ "" then
    match env.loadClassFromFile with
    | .error _ => (.JVM_EXCEPTION, [])
    | .ok mainClass => jvmRunExec env mainClass
  else
    (.APP_EXCEPTION, ["Error: No executable program specified. Exiting."])

/-! ## metrics.go: instrumentation provider registry -/

/-- An `InstrumentationProvider` as far as the registry is concerned: its
`Name()`. -/
structure Provider where
  name : String
deriving DecidableEq, Repr

/-- metrics.go `RegisterProvider` acting on the `instrumentationProviders`
map: returns the registry after the call and the error returned (none on
success).  `RefreshInstrumentationEndpoints` touches only the HTTP mux, not
the registry. -/
def registerProvider (reg : List (String × Provider)) (p : Provider) :
    List (String × Provider) × Option String :=
  if (reg.find? (fun q => q.1 = p.name)).isSome then
    (reg, some ("Provider with name " ++ p.name ++ " already registered"))
  else
    (reg ++ [(p.name, p)], none)

/-! ## Class-file parser and constant-pool normalizer

The classloader's `parse`, `convertToPostableClass`, `insert` and
`ParseAndPostClass` are code of this repository that is not under `src/`
(only their tests are), so they are modelled from the spec, with the data
shapes the tests exhibit. -/

inductive CpType where
  | Dummy
  | UTF8
  | IntConst
  | FloatConst
  | LongConst
  | DoubleConst
  | ClassRef
  | StringConst
  | FieldRef
  | MethodRef
  | Interface
  | NameAndType
  | MethodHandle
  | MethodType
  | DynamicEntry
  | InvokeDynamic
  | Module
  | Package
deriving DecidableEq, Repr

/-- A constant-pool index entry: a tag and a slot into the tag's side table
(`cpEntry{StringConst, 0}` in the tests). -/
structure CpEntry where
  entryType : CpType
  slot : Nat
deriving DecidableEq, Repr

/-- Modelled from the spec: the `ParsedClass` intermediate form (classloader
package, not under src/), restricted to the fields the claims need — the
constant-pool index, the utf8 side table, and the string-constant side table
whose entries hold the index of the utf8 entry the string constant references
(§3, §4.3; shapes from `TestConvertToPostableClassStringRefs`). -/
structure ParsedClassModel where
  cpCount : Nat
  cpIndex : List CpEntry
  utf8Refs : List String
  stringRefs : List Nat
deriving DecidableEq, Repr

/-- The constant-pool part of a postable class (`postableClass.CP` in the
tests: `CpIndex` and `Utf8Refs`). -/
structure CPoolModel where
  cpIndex : List CpEntry
  utf8Refs : List String
deriving DecidableEq, Repr

structure PostableClassModel where
  cp : CPoolModel
deriving DecidableEq, Repr

/-- Modelled from the spec: the single semantic transform of
`convertToPostableClass` (§4.3) — a pool entry of tag string-constant is
rewritten in place to tag UTF8, its side-table index repointed to the utf8
entry referenced by the original string-constant. -/
def convertEntry (pc : ParsedClassModel) (e : CpEntry) : CpEntry :=
  match e.entryType with
  | .StringConst => ⟨.UTF8, pc.stringRefs.getD e.slot 0⟩
  | _ => e

/-- Modelled from the spec: `convertToPostableClass` (classloader package,
not under src/) — rewrite string-constant entries, carry the other pool kinds
across unchanged (§4.3). -/
def convertToPostableClass (pc : ParsedClassModel) : PostableClassModel :=
  ⟨⟨pc.cpIndex.map (convertEntry pc), pc.utf8Refs⟩⟩

/-- The logical resolved string value of pool index `i`: a UTF8 entry
resolves through the utf8 side table, a string-constant through its side
table and then the utf8 table; other tags resolve to no string. -/
def resolvedString (cpIndex : List CpEntry) (utf8Refs : List String)
    (stringRefs : List Nat) (i : Nat) : Option String :=
  match cpIndex[i]? with
  | none => none
  | some e =>
    match e.entryType with
    | .UTF8 => utf8Refs[e.slot]?
    | .StringConst => stringRefs[e.slot]?.bind (fun j => utf8Refs[j]?)
    | _ => none

/-- The classlist of four CAFEBABE bytes a class file must start with. -/
def javaMagic : List Nat := [0xCA, 0xFE, 0xBA, 0xBE]

/-- Modelled from the spec: the class-file parser `parse` (classloader
package, not under src/); only the magic-number gate is modelled (§4.2
"Magic must equal 0xCAFEBABE; otherwise fail 'invalid magic number'"); the
parsing after a valid magic is elided to an empty parsed class, which no
claim inspects. -/
def parseClass (name : String) (b : List Nat) : Except String ParsedClassModel :=
  if b.take 4 = javaMagic then
    .ok ⟨0, [], [], []⟩
  else
    .error ("invalid magic number in class " ++ name)

/-- The method area: class name to postable class (status omitted). -/
def MethodArea := List (String × PostableClassModel)
deriving DecidableEq, Repr

/-- Modelled from the spec: method-area `insert` (§4.4) — install iff no
record exists under the name. -/
def insertClass (area : MethodArea) (name : String) (k : PostableClassModel) :
    MethodArea :=
  let l : List (String × PostableClassModel) := area
  if (l.find? (fun p => p.1 = name)).isSome then l else l ++ [(name, k)]

/-- Modelled from the spec: `ParseAndPostClass` (classloader package, not
under src/) — parse, normalize, insert; a parse failure propagates its error
and performs no insert (§4.7, §7 "Format errors never panic; they return a
descriptive error up the pipeline"). -/
def parseAndPostClass (area : MethodArea) (name : String) (b : List Nat) :
    MethodArea × Option String :=
  match parseClass name b with
  | .error e => (area, some e)
  | .ok pc => (insertClass area name (convertToPostableClass pc), none)

/-- `s` contains `pat` as a substring. -/
def strContains (s pat : String) : Prop :=
  ∃ pre post, s = pre ++ pat ++ post

/-! ## Concrete instances used by witnesses and counterexamples -/

/-- An archive shaped like `testdata/jmod/jacobin.jmod`: a classlist naming
only `org/jacobin/test/Hello`, plus that class and `module-info.class`. -/
def sampleClasslistJmod : List ZipEntry :=
  [⟨"lib/classlist", ("org/jacobin/test/Hello".toList.map Char.toNat)⟩,
   ⟨"classes/org/jacobin/test/Hello.class", [1, 2]⟩,
   ⟨"classes/module-info.class", [3]⟩]

/-- A ZIP decoder producing one class entry, for the C9 witness. -/
def zipDecodeOneClass : List Nat → Except String (List ZipEntry) :=
  fun _ => .ok [⟨"classes/A.class", [7]⟩]

/-- A ZIP decoder producing an empty archive. -/
def zipDecodeEmpty : List Nat → Except String (List ZipEntry) :=
  fun _ => .ok []

/-- Package a ZIP library result as the value `getZipReader` returns when the
JMOD header checks pass: the remainder of the file interpreted as a ZIP
archive. -/
def ofZipResult : Except String (List ZipEntry) → GoResult (List ZipEntry)
  | .ok a => .ok a
  | .error e => .err e

/-- The parsed class of `TestConvertToPostableClassStringRefs`: a dummy
entry, a string constant whose side-table entry references utf8 slot 0, and
a utf8 entry, with `"Hello string"` as the only utf8 content. -/
def stringRefKlass : ParsedClassModel :=
  ⟨3, [⟨CpType.Dummy, 0⟩, ⟨CpType.StringConst, 0⟩, ⟨CpType.UTF8, 0⟩],
    ["Hello string"], [0]⟩

/-- Two one-class archives both holding `X.class`, with different bytes. -/
def archiveOne : List ZipEntry := [⟨"classes/X.class", [1]⟩]

/-- See `archiveOne`. -/
def archiveTwo : List ZipEntry := [⟨"classes/X.class", [2]⟩]

/-- A provider for the registry witness. -/
def providerAlpha : Provider := ⟨"alpha"⟩

/-! ## Helper lemmas -/

/-- Go `strings.Split` never returns an empty list, so a readable classlist
always yields a non-empty class set. -/
theorem splitOnChar_ne_nil (c : Char) (l : List Char) : splitOnChar c l ≠ [] := by
  induction l with
  | nil => simp [splitOnChar]
  | cons x xs ih =>
    rw [splitOnChar]
    by_cases h : x = c
    · simp [h]
    · simp only [if_neg h]
      cases hs : splitOnChar c xs with
      | nil => simp
      | cons y ys => simp

theorem classlistNames_ne_nil (content : String) : classlistNames content ≠ [] := by
  unfold classlistNames splitLines
  simp [splitOnChar_ne_nil]

/-- The selection predicate of the `Walk` loop: prefix `classes`, then the
classlist filter when a classlist was found, the `.class` suffix otherwise. -/
def walkSelect (classSet : List String) (f : ZipEntry) : Bool :=
  goStartsWith f.name "classes" &&
    (if classSet.isEmpty then goEndsWith f.name ".class"
     else classSet.contains (classFileName f.name))

theorem walkLoop_visits (fileName : String)
    (visitor : List Nat → String → Option String) (classSet : List String)
    (archive : List ZipEntry) (m : EntryMap) :
    (walkLoop fileName visitor classSet archive m).visits =
      (archive.filter (walkSelect classSet)).map
        (fun f => (f.content, fileName ++ "+" ++ f.name)) := by
  induction archive generalizing m with
  | nil => rfl
  | cons f rest ih =>
    rw [walkLoop]
    cases h1 : goStartsWith f.name "classes" with
    | false => simp [h1, walkSelect, ih]
    | true =>
      cases h2 : classSet.isEmpty with
      | false =>
        cases h3 : classSet.contains (classFileName f.name) with
        | false =>
          have h3' : ¬ classFileName f.name ∈ classSet := by
            simpa [List.elem_iff] using h3
          simp [h1, h2, h3, h3', walkSelect, ih]
        | true =>
          have h3' : classFileName f.name ∈ classSet := by
            simpa [List.elem_iff] using h3
          simp [h1, h2, h3, h3', walkSelect, ih]
      | true =>
        cases h4 : goEndsWith f.name ".class" with
        | false => simp [h1, h2, h4, walkSelect, ih]
        | true => simp [h1, h2, h4, walkSelect, ih]

/-! # Claims -/

/-- **C1** (amended): the claim's "never on entries outside `classes/`" holds
only up to the code's actual filter, which tests the *prefix* `classes`, not
residence under the directory `classes/`.  As amended: for every decoded JMOD
archive with a `lib/classlist`, `Walk` invokes the visitor exactly on the
`classes`-prefixed entries whose class-relative name (the entry name with the
first `classes/` occurrence removed) appears in the classlist (each classlist
line suffixed `.class`) — in particular never on `module-info.class` unless
listed; for every archive lacking a classlist it invokes the visitor exactly
on the `classes`-prefixed entries ending in `.class`.  Each invocation
receives the raw entry bytes and `<archive-path>+<internal-entry>`. -/
theorem claim1_walk_visits_exactly (fileName : String)
    (visitor : List Nat → String → Option String) (archive : List ZipEntry)
    (m : EntryMap) :
    ((findEntry archive "lib/classlist").isSome →
      (jmodWalk fileName archive visitor m).visits =
        (archive.filter (fun f => goStartsWith f.name "classes" &&
            (getClasslist archive).contains (classFileName f.name))).map
          (fun f => (f.content, fileName ++ "+" ++ f.name))) ∧
    (findEntry archive "lib/classlist" = none →
      (jmodWalk fileName archive visitor m).visits =
        (archive.filter (fun f => goStartsWith f.name "classes" &&
            goEndsWith f.name ".class")).map
          (fun f => (f.content, fileName ++ "+" ++ f.name))) := by
  constructor
  · intro h
    obtain ⟨e, he⟩ := Option.isSome_iff_exists.mp h
    unfold jmodWalk
    rw [walkLoop_visits]
    apply congrArg
    apply List.filter_congr
    intro f _
    have hne : getClasslist archive ≠ [] := by
      unfold getClasslist
      rw [he]
      exact classlistNames_ne_nil _
    have hemp : (getClasslist archive).isEmpty = false := by
      cases hcl : getClasslist archive
      · exact absurd hcl hne
      · rfl
    simp [walkSelect, hemp]
  · intro h
    have hcl : getClasslist archive = [] := by
      unfold getClasslist
      rw [h]
    unfold jmodWalk
    rw [walkLoop_visits, hcl]
    apply congrArg
    apply List.filter_congr
    intro f _
    simp [walkSelect]

/-- **C1** witness: on the classlist archive, the visitor is invoked exactly
on `classes/org/jacobin/test/Hello.class` and not on the unlisted
`classes/module-info.class`. -/
theorem claim1_walk_visits_exactly_witness :
    (jmodWalk "j" sampleClasslistJmod (fun _ _ => none) ∅).visits
      = [([1, 2], "j+classes/org/jacobin/test/Hello.class")] := by
  have h := (claim1_walk_visits_exactly "j" (fun _ _ => none)
    sampleClasslistJmod ∅).1 (by decide)
  rw [h]
  decide

/-- **C1** counterexample: the claim as stated — the visitor is never invoked
on entries outside `classes/` — is false: in an archive whose sole entry is
named `classesX.class` (no classlist), `Walk` visits that entry although its
name does not lie under `classes/` (the code only checks the prefix
`classes`). -/
theorem claim1_counterexample :
    (jmodWalk "f" [⟨"classesX.class", [1]⟩] (fun _ _ => none) ∅).visits
      = [([1], "f+classesX.class")] ∧
    goStartsWith "classesX.class" "classes/" = false := by
  exact ⟨rfl, by decide⟩

/-- **C9**: an error returned by the visitor for one entry does not abort
`Jmod.Walk`: `Walk` discards visitor errors (`_ = walk(...)`), so for every
decoded archive it completes with nil error no matter what the visitor
returns, its sequence of visitor invocations is independent of the visitor's
returned errors, and every matching entry is still visited. -/
theorem claim9_visitor_error_ignored
    (zipDecode : List Nat → Except String (List ZipEntry))
    (fileName : String) (b : List Nat) (m : EntryMap) (archive : List ZipEntry)
    (visitor : List Nat → String → Option String)
    (h : getZipReader zipDecode fileName b = .ok archive) :
    jmodWalkFull zipDecode fileName b visitor m =
      .ok (jmodWalk fileName archive visitor m) ∧
    (jmodWalk fileName archive visitor m).visits =
      (jmodWalk fileName archive (fun _ _ => none) m).visits ∧
    (jmodWalk fileName archive visitor m).visits =
      (archive.filter (walkSelect (getClasslist archive))).map
        (fun f => (f.content, fileName ++ "+" ++ f.name)) := by
  refine ⟨?_, ?_, ?_⟩
  · unfold jmodWalkFull
    rw [h]
  · unfold jmodWalk
    rw [walkLoop_visits, walkLoop_visits]
  · unfold jmodWalk
    rw [walkLoop_visits]

/-- **C9** witness: a JMOD file of four header bytes whose payload decodes to
one class entry; with an always-failing visitor the walk still returns nil
and visits the same entry as the never-failing visitor. -/
theorem claim9_visitor_error_ignored_witness :
    jmodWalkFull zipDecodeOneClass "f" [74, 77, 0, 0] (fun _ _ => some "boom") ∅ =
      .ok (jmodWalk "f" [⟨"classes/A.class", [7]⟩] (fun _ _ => some "boom") ∅) ∧
    (jmodWalk "f" [⟨"classes/A.class", [7]⟩] (fun _ _ => some "boom") ∅).visits =
      (jmodWalk "f" [⟨"classes/A.class", [7]⟩] (fun _ _ => none) ∅).visits := by
  have h := claim9_visitor_error_ignored zipDecodeOneClass "f" [74, 77, 0, 0] ∅
    [⟨"classes/A.class", [7]⟩] (fun _ _ => some "boom") (by decide)
  exact ⟨h.1, h.2.1⟩

/-- **C2** (amended): for every file of at least two bytes whose big-endian
16-bit magic differs from 0x4A4D, opening it as a JMOD fails with the
ArchiveInvalid error that names the file and cites the expected and actual
magic in hex, and both `Walk` and `LoadByName` propagate exactly that error;
for every file of **at least four** bytes whose magic is 0x4A4D, the 4-byte
header is skipped and the remaining bytes are handed to the ZIP reader.  The
amendment restricts the second half to files of length ≥ 4: a file of length
2 or 3 with the correct magic panics at the slice `b[4:]` instead (see the
counterexample). -/
theorem claim2_magic_gate (zipDecode : List Nat → Except String (List ZipEntry))
    (fileName : String) (b : List Nat)
    (visitor : List Nat → String → Option String) (m : EntryMap)
    (st : JmodState) (name : String) :
    (2 ≤ b.length → b.getD 0 0 * 256 + b.getD 1 0 ≠ MagicNumber →
      ∃ msg, getZipReader zipDecode fileName b = .err msg ∧
        msg = magicErrMsg fileName (b.getD 0 0 * 256 + b.getD 1 0) ∧
        strContains msg fileName ∧
        strContains msg (toHex MagicNumber) ∧
        strContains msg (toHex (b.getD 0 0 * 256 + b.getD 1 0)) ∧
        jmodWalkFull zipDecode fileName b visitor m = .err msg ∧
        loadByNameFull zipDecode fileName b st name = (st, .err msg)) ∧
    (4 ≤ b.length → b.getD 0 0 * 256 + b.getD 1 0 = MagicNumber →
      getZipReader zipDecode fileName b = ofZipResult (zipDecode (b.drop 4))) := by
  constructor
  · intro hlen hmagic
    have h2 : ¬ b.length < 2 := by omega
    have hg : getZipReader zipDecode fileName b =
        .err (magicErrMsg fileName (b.getD 0 0 * 256 + b.getD 1 0)) := by
      unfold getZipReader
      rw [if_neg h2, if_pos hmagic]
    refine ⟨magicErrMsg fileName (b.getD 0 0 * 256 + b.getD 1 0), hg, rfl, ?_, ?_, ?_, ?_, ?_⟩
    · exact ⟨"An IOException occurred reading ",
        ": the magic number is invalid. Expected: " ++ toHex MagicNumber ++
          ", Got: " ++ toHex (b.getD 0 0 * 256 + b.getD 1 0),
        by simp [magicErrMsg, String.append_assoc]⟩
    · exact ⟨"An IOException occurred reading " ++ fileName ++
          ": the magic number is invalid. Expected: ",
        ", Got: " ++ toHex (b.getD 0 0 * 256 + b.getD 1 0),
        by simp [magicErrMsg, String.append_assoc]⟩
    · exact ⟨"An IOException occurred reading " ++ fileName ++
          ": the magic number is invalid. Expected: " ++ toHex MagicNumber ++
          ", Got: ", "",
        by simp [magicErrMsg, String.append_assoc]⟩
    · unfold jmodWalkFull
      rw [hg]
    · unfold loadByNameFull
      rw [hg]
  · intro hlen hmagic
    have h2 : ¬ b.length < 2 := by omega
    have h4 : ¬ b.length < 4 := by omega
    unfold getZipReader
    rw [if_neg h2, if_neg (by simpa using hmagic), if_neg h4]
    unfold ofZipResult
    cases zipDecode (b.drop 4) <;> rfl

/-- **C2** witness: the wrong-magic half at a two-byte `##` file (magic
0x2323), the good-magic half at a four-byte `JM` header with an empty ZIP
payload. -/
theorem claim2_magic_gate_witness :
    getZipReader zipDecodeEmpty "README.md" [35, 35] =
      .err (magicErrMsg "README.md" 8995) ∧
    getZipReader zipDecodeEmpty "f" [74, 77, 0, 0] = ofZipResult (zipDecodeEmpty []) := by
  constructor
  · obtain ⟨msg, hgzr, hmsg, -⟩ :=
      (claim2_magic_gate zipDecodeEmpty "README.md" [35, 35] (fun _ _ => none) ∅
        initJmodState "x").1 (by decide) (by decide)
    rw [hmsg] at hgzr
    exact hgzr
  · exact (claim2_magic_gate zipDecodeEmpty "f" [74, 77, 0, 0] (fun _ _ => none) ∅
      initJmodState "x").2 (by decide) (by decide)

/-- **C2** counterexample: a file consisting of exactly the two bytes `JM`
has the correct magic, yet the code panics at the slice `b[4:]` instead of
skipping the header and handing the (empty) remainder to the ZIP reader. -/
theorem claim2_counterexample :
    getZipReader zipDecodeEmpty "f" [74, 77] =
      .panicked "runtime error: slice bounds out of range" ∧
    getZipReader zipDecodeEmpty "f" [74, 77] ≠
      ofZipResult (zipDecodeEmpty ([74, 77].drop 4)) := by
  exact ⟨by decide, by decide⟩

/-- **C3**: for every byte sequence whose first four bytes are not
0xCAFEBABE, `ParseAndPostClass` fails with a format error whose message
contains the substring `"invalid magic number"`, and no class is installed:
the method area is returned unchanged. -/
theorem claim3_invalid_magic (area : MethodArea) (name : String) (b : List Nat)
    (h : b.take 4 ≠ javaMagic) :
    (parseAndPostClass area name b).1 = area ∧
    ∃ msg, (parseAndPostClass area name b).2 = some msg ∧
      strContains msg "invalid magic number" := by
  unfold parseAndPostClass parseClass
  rw [if_neg h]
  refine ⟨rfl, "invalid magic number in class " ++ name, rfl,
    "", " in class " ++ name, ?_⟩
  rw [← String.append_assoc]
  exact congrArg (fun s => s ++ name) (by decide)

/-- **C3** witness: the four bytes `CB FE BA BE` of the test suite are
rejected with the `invalid magic number` message and an empty method area
stays empty. -/
theorem claim3_invalid_magic_witness :
    (parseAndPostClass ([] : MethodArea) "Hello2" [0xCB, 0xFE, 0xBA, 0xBE]).1 =
      ([] : MethodArea) ∧
    ∃ msg, (parseAndPostClass ([] : MethodArea) "Hello2" [0xCB, 0xFE, 0xBA, 0xBE]).2 =
      some msg ∧ strContains msg "invalid magic number" :=
  claim3_invalid_magic ([] : MethodArea) "Hello2" [0xCB, 0xFE, 0xBA, 0xBE] (by decide)

/-- **C4**: `convertToPostableClass` rewrites every string-constant pool
entry to tag UTF8 (no string-constant survives), repoints its side-table
index to the utf8 entry the string constant referenced, and preserves the
resolved string value of every pool index. -/
theorem claim4_normalize_strings (pc : ParsedClassModel)
    (wf : ∀ e ∈ pc.cpIndex, e.entryType = CpType.StringConst →
      e.slot < pc.stringRefs.length) :
    (∀ e ∈ (convertToPostableClass pc).cp.cpIndex,
      e.entryType ≠ CpType.StringConst) ∧
    (∀ (i : Nat) (e : CpEntry), pc.cpIndex[i]? = some e → e.entryType = CpType.StringConst →
      ∃ j, pc.stringRefs[e.slot]? = some j ∧
        (convertToPostableClass pc).cp.cpIndex[i]? = some ⟨CpType.UTF8, j⟩) ∧
    (∀ i, resolvedString (convertToPostableClass pc).cp.cpIndex
        (convertToPostableClass pc).cp.utf8Refs [] i =
      resolvedString pc.cpIndex pc.utf8Refs pc.stringRefs i) := by
  refine ⟨?_, ?_, ?_⟩
  · intro e he
    obtain ⟨a, ha, rfl⟩ := List.mem_map.mp he
    cases hta : a.entryType <;> simp [convertEntry, hta]
  · intro i e hget het
    have hmem : e ∈ pc.cpIndex := List.getElem?_mem hget
    have hlt : e.slot < pc.stringRefs.length := wf e hmem het
    obtain ⟨j, hj⟩ : ∃ j, pc.stringRefs[e.slot]? = some j :=
      ⟨pc.stringRefs[e.slot], List.getElem?_eq_getElem hlt⟩
    refine ⟨j, hj, ?_⟩
    show (pc.cpIndex.map (convertEntry pc))[i]? = _
    rw [List.getElem?_map, hget]
    have hd : pc.stringRefs[e.slot]?.getD 0 = j := by
      rw [hj]
      rfl
    simp [convertEntry, het, hd]
  · intro i
    show resolvedString (pc.cpIndex.map (convertEntry pc)) pc.utf8Refs [] i = _
    unfold resolvedString
    rw [List.getElem?_map]
    cases hget : pc.cpIndex[i]? with
    | none => rfl
    | some e =>
      cases hta : e.entryType with
      | StringConst =>
        have hmem : e ∈ pc.cpIndex := List.getElem?_mem hget
        have hlt : e.slot < pc.stringRefs.length := wf e hmem hta
        obtain ⟨j, hj⟩ : ∃ j, pc.stringRefs[e.slot]? = some j :=
          ⟨pc.stringRefs[e.slot], List.getElem?_eq_getElem hlt⟩
        have hd : pc.stringRefs.getD e.slot 0 = j := by
          rw [List.getD_eq_getElem?_getD, hj]
          rfl
        simp [convertEntry, hta, hd, hj]
      | UTF8 => simp [convertEntry, hta]
      | Dummy => simp [convertEntry, hta]
      | IntConst => simp [convertEntry, hta]
      | FloatConst => simp [convertEntry, hta]
      | LongConst => simp [convertEntry, hta]
      | DoubleConst => simp [convertEntry, hta]
      | ClassRef => simp [convertEntry, hta]
      | FieldRef => simp [convertEntry, hta]
      | MethodRef => simp [convertEntry, hta]
      | Interface => simp [convertEntry, hta]
      | NameAndType => simp [convertEntry, hta]
      | MethodHandle => simp [convertEntry, hta]
      | MethodType => simp [convertEntry, hta]
      | DynamicEntry => simp [convertEntry, hta]
      | InvokeDynamic => simp [convertEntry, hta]
      | Module => simp [convertEntry, hta]
      | Package => simp [convertEntry, hta]

/-- **C4** witness: the constant pool of
`TestConvertToPostableClassStringRefs` — a dummy entry, a string constant
referencing utf8 slot 0 (`"Hello string"`), and a utf8 entry — has its
string constant rewritten to a UTF8 entry pointing at slot 0. -/
theorem claim4_normalize_strings_witness :
    ∃ j, stringRefKlass.stringRefs[0]? = some j ∧
      (convertToPostableClass stringRefKlass).cp.cpIndex[1]? =
        some ⟨CpType.UTF8, j⟩ :=
  (claim4_normalize_strings stringRefKlass (by decide)).2.1 1
    ⟨CpType.StringConst, 0⟩ (by decide) rfl

/-- **C5** (amended): `LoadClassByName` probes the indexed archives in an
*unspecified* enumeration order of the underlying Go map — `range` over a Go
map does not follow insertion order — and returns the bytes of the first
*probed* archive containing the name; when no indexed archive contains it
(including when none is indexed) the result is `(nil, nil)`, not an error;
and a single-archive `LoadByName` miss likewise yields `(nil, nil)`. -/
theorem claim5_load_first_probed (order : List (List ZipEntry)) (name : String) :
    ((∀ a ∈ order, loadByNameFresh a name = .ok none) →
      loadClassByNameWith order name = .ok none) ∧
    (∀ pre a post, order = pre ++ a :: post →
      (∀ x ∈ pre, loadByNameFresh x name = .ok none) →
      ∀ res, loadByNameFresh a name = .ok (some res) →
        loadClassByNameWith order name = .ok (some res)) ∧
    (∀ archive, mapGet (populateEntries ∅ archive) name = none →
      loadByNameFresh archive name = .ok none) := by
  refine ⟨?_, ?_, ?_⟩
  · intro h
    induction order with
    | nil => rfl
    | cons a rest ih =>
      rw [loadClassByNameWith, h a (List.mem_cons_self a rest)]
      exact ih fun x hx => h x (List.mem_cons_of_mem a hx)
  · intro pre a post heq hpre res hhit
    subst heq
    induction pre with
    | nil =>
      rw [List.nil_append, loadClassByNameWith, hhit]
    | cons x xs ih =>
      rw [List.cons_append, loadClassByNameWith,
        hpre x (List.mem_cons_self x xs)]
      exact ih fun y hy => hpre y (List.mem_cons_of_mem x hy)
  · intro archive h
    unfold loadByNameFresh loadByNameStep loadByNameState initJmodState
    simp only []
    rw [if_neg (by simp)]
    simp only [h]

/-- **C5** witness: a miss across one archive and across an empty index both
return `(nil, nil)`. -/
theorem claim5_load_first_probed_witness :
    loadClassByNameWith [archiveOne] "Y.class" = .ok none ∧
    loadClassByNameWith [] "Y.class" = .ok none :=
  ⟨(claim5_load_first_probed [archiveOne] "Y.class").1 (by decide),
   (claim5_load_first_probed [] "Y.class").1 (by decide)⟩

/-- **C5** counterexample: insertion order is `[archiveOne, archiveTwo]` and
both archives contain `X.class` (bytes `[1]` and `[2]`).  The claim predicts
the insertion-order result `[1]` for every run, but the reversed
enumeration — a permutation of the same indexed archives, admissible for a
Go map `range` — returns `[2]`. -/
theorem claim5_counterexample :
    loadClassByNameWith [archiveOne, archiveTwo] "X.class" = .ok (some [1]) ∧
    loadClassByNameWith [archiveTwo, archiveOne] "X.class" = .ok (some [2]) ∧
    List.Perm [archiveTwo, archiveOne] [archiveOne, archiveTwo] ∧
    GoResult.ok (some ([2] : List Nat)) ≠ GoResult.ok (some ([1] : List Nat)) :=
  ⟨by decide, by decide, List.Perm.swap archiveOne archiveTwo [], by decide⟩

/-- **C6** (amended): `InitJmodManager` fails with the BaseNotFound error
`Base JMOD with name <m> not found in <p>/jmods` whenever the walked
directory listing holds no `.jmod` path whose base name is `<m>` — both when
the `jmods` directory does not exist (the `filepath.Walk` callback then sees
only the directory path, with an error the code ignores) and when the
directory exists without the base archive.  The initialization itself never
produces the ConfigError `JAVA_HOME (<p>) does not exist`; the two failure
modes are not distinct at this level. -/
theorem claim6_base_not_found (dirListing : List String)
    (javaHome baseName : String)
    (h : ∀ p ∈ dirListing, goEndsWith p ".jmod" = true → pathBase p ≠ baseName) :
    initJmodManager dirListing javaHome baseName =
      .error ("Base JMOD with name " ++ baseName ++ " not found in " ++
        (javaHome ++ "/" ++ "jmods")) := by
  unfold initJmodManager
  have hnil : (dirListing.filter (fun p => goEndsWith p ".jmod")).filter
      (fun p => pathBase p = baseName) = [] := by
    rw [List.filter_eq_nil_iff]
    intro p hp
    obtain ⟨hmem, hjmod⟩ := List.mem_filter.mp hp
    simp [h p hmem hjmod]
  rw [hnil]
  rfl

/-- **C6** witness: a jmods directory holding only `java.logging.jmod` lacks
the base `java.base.jmod`. -/
theorem claim6_base_not_found_witness :
    initJmodManager ["p/jmods/java.logging.jmod"] "p" "java.base.jmod" =
      .error ("Base JMOD with name " ++ "java.base.jmod" ++ " not found in " ++
        ("p" ++ "/" ++ "jmods")) :=
  claim6_base_not_found ["p/jmods/java.logging.jmod"] "p" "java.base.jmod" (by decide)

/-- **C6** counterexample: with the nonexistent Java home `gherkin`,
`InitJmodManager` returns the BaseNotFound error, not the ConfigError
`JAVA_HOME (gherkin) does not exist` the claim requires for a missing
directory (that message is logged by `LoadBaseClasses`, the caller, which is
not part of this initialization). -/
theorem claim6_counterexample :
    initJmodManager ["gherkin/jmods"] "gherkin" "java.base.jmod" =
      .error "Base JMOD with name java.base.jmod not found in gherkin/jmods" ∧
    "Base JMOD with name java.base.jmod not found in gherkin/jmods" ≠
      "JAVA_HOME (gherkin) does not exist" :=
  ⟨rfl, by decide⟩

/-- **C7**: the shutdown reasons of `JVMrun` when loading the explicit
user-requested program fails: JVM_EXCEPTION for a `GetMainClassFromJar`
error, a `LoadClassFromJar` error, or a `LoadClassFromFile` error;
APP_EXCEPTION when no executable program is specified, when the JAR manifest
lacks a Main-Class attribute (after logging `no main manifest attribute, in
<jar>`), and when downstream execution (`StartExec`) fails. -/
theorem claim7_shutdown_reasons (env : JvmEnv)
    (hcli : env.cliError = false) (hexit : env.exitNow = false) :
    (∀ e, env.startingJar ≠ "" → env.mainClassFromJar = .error e →
      (jvmRun env).1 = ShutdownReason.JVM_EXCEPTION) ∧
    (env.startingJar ≠ "" → env.mainClassFromJar = .ok "" →
      (jvmRun env).1 = ShutdownReason.APP_EXCEPTION ∧
      ("no main manifest attribute, in " ++ env.startingJar) ∈ (jvmRun env).2) ∧
    (∀ m e, env.startingJar ≠ "" → env.mainClassFromJar = .ok m → m ≠ "" →
      env.loadClassFromJar = .error e →
      (jvmRun env).1 = ShutdownReason.JVM_EXCEPTION) ∧
    (∀ e, env.startingJar = "" → env.startingClass ≠ "" →
      env.loadClassFromFile = .error e →
      (jvmRun env).1 = ShutdownReason.JVM_EXCEPTION) ∧
    (env.startingJar = "" → env.startingClass = "" →
      (jvmRun env).1 = ShutdownReason.APP_EXCEPTION) ∧
    (∀ m mc, env.startingJar ≠ "" → env.mainClassFromJar = .ok m → m ≠ "" →
      env.loadClassFromJar = .ok mc → env.startExecFails = true →
      (jvmRun env).1 = ShutdownReason.APP_EXCEPTION) ∧
    (∀ mc, env.startingJar = "" → env.startingClass ≠ "" →
      env.loadClassFromFile = .ok mc → env.startExecFails = true →
      (jvmRun env).1 = ShutdownReason.APP_EXCEPTION) := by
  refine ⟨?_, ?_, ?_, ?_, ?_, ?_, ?_⟩ <;>
    intros <;>
    simp_all [jvmRun, jvmRunExec, hcli, hexit]

/-- **C7** witness: with no starting JAR and no starting class, `JVMrun`
exits with APP_EXCEPTION. -/
theorem claim7_shutdown_reasons_witness :
    (jvmRun ⟨false, false, "", "", Except.ok "", Except.ok "", Except.ok "", false⟩).1 =
      ShutdownReason.APP_EXCEPTION :=
  (claim7_shutdown_reasons
    ⟨false, false, "", "", Except.ok "", Except.ok "", Except.ok "", false⟩
    rfl rfl).2.2.2.2.1 rfl rfl

/-- **C8** (amended): the once-guard makes `LoadByName` populate the
`entries` map at most once — every `LoadByName` call leaves `onceDone` set,
and once it is set, any further sequence of `LoadByName` operations leaves
the handle's state (entries map included) unchanged.  `Walk`, by contrast,
writes the entry index on every invocation, outside the once-guard, so the
map is *not* read-only after population (see the counterexample). -/
theorem claim8_once_guard (st : JmodState) (ops : List JmodOp)
    (hall : ∀ op ∈ ops, ∀ a, op ≠ JmodOp.walkAll a) :
    (∀ (a : List ZipEntry) (n : String),
      ((loadByNameStep st a n).1).onceDone = true) ∧
    (st.onceDone = true → runOps st ops = st) := by
  constructor
  · intro a n
    cases h : st.onceDone with
    | false => simp [loadByNameStep, loadByNameState, h]
    | true => simp [loadByNameStep, loadByNameState, h]
  · intro hdone
    induction ops with
    | nil => rfl
    | cons op rest ih =>
      cases op with
      | load a n =>
        show runOps (runOp st (JmodOp.load a n)) rest = st
        have hstep : runOp st (JmodOp.load a n) = st := by
          simp [runOp, loadByNameStep, loadByNameState, hdone]
        rw [hstep]
        exact ih fun o ho a => hall o (List.mem_cons_of_mem _ ho) a
      | walkAll a =>
        exact absurd rfl (hall (JmodOp.walkAll a) (List.mem_cons_self _ _) a)

/-- **C8** witness: after one `LoadByName` the guard is set, and a further
`LoadByName` on a different archive leaves the state unchanged. -/
theorem claim8_once_guard_witness :
    ((loadByNameStep ⟨[("A.class", "classes/A.class")], true⟩
      [⟨"classes/B.class", [2]⟩] "B.class").1).onceDone = true ∧
    runOps ⟨[("A.class", "classes/A.class")], true⟩
      [JmodOp.load [⟨"classes/B.class", [2]⟩] "B.class"] =
      ⟨[("A.class", "classes/A.class")], true⟩ := by
  have h := claim8_once_guard ⟨[("A.class", "classes/A.class")], true⟩
    [JmodOp.load [⟨"classes/B.class", [2]⟩] "B.class"]
    (by intro op ho a; simp at ho; simp [ho])
  exact ⟨h.1 [⟨"classes/B.class", [2]⟩] "B.class", h.2 rfl⟩

/-- **C8** counterexample: a `LoadByName` populates the entries map
(non-empty afterwards); a subsequent `Walk` over an archive holding a
different class mutates the populated map, so the map is not read-only after
population. -/
theorem claim8_counterexample :
    (runOps initJmodState [JmodOp.load [⟨"classes/A.class", [1]⟩] "A.class"]).entries =
      [("A.class", "classes/A.class")] ∧
    (runOps initJmodState [JmodOp.load [⟨"classes/A.class", [1]⟩] "A.class",
        JmodOp.walkAll [⟨"classes/B.class", [2]⟩]]).entries =
      [("A.class", "classes/A.class"), ("B.class", "classes/B.class")] ∧
    ([("A.class", "classes/A.class")] : EntryMap) ≠
      [("A.class", "classes/A.class"), ("B.class", "classes/B.class")] :=
  ⟨by decide, by decide, by decide⟩

/-- **C10**: `RegisterProvider` returns the error `Provider with name <n>
already registered` precisely when a provider of the same name is present,
leaving the registry unchanged; otherwise it appends the provider and
returns nil. -/
theorem claim10_register_provider (reg : List (String × Provider)) (p : Provider) :
    ((∃ q ∈ reg, q.1 = p.name) →
      registerProvider reg p =
        (reg, some ("Provider with name " ++ p.name ++ " already registered"))) ∧
    ((∀ q ∈ reg, q.1 ≠ p.name) →
      registerProvider reg p = (reg ++ [(p.name, p)], none)) := by
  constructor
  · rintro ⟨q, hq, hname⟩
    have hs : (reg.find? (fun q => q.1 = p.name)).isSome := by
      rw [List.find?_isSome]
      exact ⟨q, hq, by simp [hname]⟩
    unfold registerProvider
    rw [if_pos hs]
  · intro h
    have hs : ¬ (reg.find? (fun q => q.1 = p.name)).isSome := by
      rw [List.find?_isSome]
      rintro ⟨q, hq, hname⟩
      exact h q hq (by simpa using hname)
    unfold registerProvider
    rw [if_neg hs]

/-- **C10** witness: registering `alpha` over a registry already holding
`alpha` fails with the exact message and leaves the registry unchanged;
registering it into an empty registry appends it with no error. -/
theorem claim10_register_provider_witness :
    registerProvider [("alpha", providerAlpha)] providerAlpha =
      ([("alpha", providerAlpha)],
        some ("Provider with name " ++ "alpha" ++ " already registered")) ∧
    registerProvider [] providerAlpha = ([("alpha", providerAlpha)], none) :=
  ⟨(claim10_register_provider [("alpha", providerAlpha)] providerAlpha).1
      ⟨("alpha", providerAlpha), by decide, rfl⟩,
   (claim10_register_provider [] providerAlpha).2 (by decide)⟩

end Jacobin
